import Mathlib

/-
Verification of the JobPortal candidate-job matching and counseling services.

The development shallow-embeds the Python code of
`app/services/matching_service.py` and
`app/services/counseling_service.py`:

* Python strings are Lean `String` / `List Char`;
* Python `float` arithmetic is modelled exactly over `ℚ` (and over `ℝ` for
  the cosine-similarity value, which involves a square root);
* the scikit-learn TF-IDF vectorizer is modelled by raw term counts
  weighted by an arbitrary per-term idf factor (scikit-learn's idf weights
  are positive reals; all theorems about the similarity scores are stated
  for an arbitrary idf function, so they cover scikit-learn's choice);
* exceptions that the code catches internally are modelled by the total
  branch the handler produces (the `vocab = []` branch below corresponds to
  the `ValueError("empty vocabulary")` raised by `fit_transform` and caught
  in `_calculate_similarity_scores`).
-/

namespace JobPortal

/-! ### Character classes (Python `str.lower`, regex classes of `_clean_text`) -/

/-- ASCII alphanumeric, the class `[a-zA-Z0-9]` of `re.sub(r'[^a-zA-Z0-9\s]', ' ', text)`. -/
def isAsciiAlnum (c : Char) : Bool :=
  (65 ≤ c.toNat && c.toNat ≤ 90) || (97 ≤ c.toNat && c.toNat ≤ 122) ||
    (48 ≤ c.toNat && c.toNat ≤ 57)

/-- Lowercase ASCII alphanumeric (`[a-z0-9]`). -/
def isLowerAlnum (c : Char) : Bool :=
  (97 ≤ c.toNat && c.toNat ≤ 122) || (48 ≤ c.toNat && c.toNat ≤ 57)

/-- Python regex whitespace class `\s` (ASCII part). -/
def isPySpace (c : Char) : Bool :=
  c = ' ' || c = '\t' || c = '\n' || c = '\r' || c = '\x0b' || c = '\x0c'

/-! ### The text normalizer `MatchingService._clean_text`

The code is
```
text = text.lower()
text = re.sub(r'[^a-zA-Z0-9\s]', ' ', text)
text = re.sub(r'\s+', ' ', text).strip()
```
modelled stage by stage on `List Char`. -/

/-- One character of `re.sub(r'[^a-zA-Z0-9\s]', ' ', text)`: characters outside
`[a-zA-Z0-9\s]` are replaced by a space, the rest are kept. -/
def maskChar (c : Char) : Char :=
  if isAsciiAlnum c || isPySpace c then c else ' '

/-- Worker for `re.sub(r'\s+', ' ', text)`: each maximal whitespace run becomes a
single `' '`.  The flag records whether the previous character belonged to a run. -/
def collapseWsAux : Bool → List Char → List Char
  | _, [] => []
  | inRun, c :: cs =>
    if isPySpace c then
      if inRun then collapseWsAux true cs else ' ' :: collapseWsAux true cs
    else c :: collapseWsAux false cs

/-- Model of `re.sub(r'\s+', ' ', text)`. -/
def collapseWs (l : List Char) : List Char := collapseWsAux false l

/-- Model of Python `str.strip()` (drop leading and trailing whitespace). -/
def stripChars (l : List Char) : List Char :=
  (((l.dropWhile isPySpace).reverse.dropWhile isPySpace)).reverse

/-- Model of `MatchingService._clean_text` on character lists. -/
def cleanChars (l : List Char) : List Char :=
  stripChars (collapseWs ((l.map Char.toLower).map maskChar))

/-- Model of `MatchingService._clean_text`. -/
def clean_text (s : String) : String := ⟨cleanChars s.data⟩

/-! ### Text preparation (`_prepare_job_text`, `_prepare_candidate_text`) -/

/-- Model of `MatchingService._prepare_job_text`. -/
def prepare_job_text (description : String) (requirements : List String) : String :=
  clean_text (description ++ " " ++ String.intercalate " " requirements)

/-- Model of `MatchingService._prepare_candidate_text`.  Note that
`" ".join(skills) * 2` is Python string repetition: the joined skill text is
concatenated with itself with no separator in between. -/
def prepare_candidate_text (resume_text : String) (skills experience : List String) :
    String :=
  let t1 := if skills.isEmpty then resume_text
    else resume_text ++ " " ++ (String.intercalate " " skills ++ String.intercalate " " skills)
  let t2 := if experience.isEmpty then t1
    else t1 ++ " " ++ String.intercalate " " experience
  clean_text t2

/-! ### The TF-IDF vectorizer and cosine similarity

`TfidfVectorizer(max_features=1000, stop_words='english', ngram_range=(1,2),
lowercase=True)` applied to texts that are outputs of `_clean_text`
(lowercase alphanumeric words separated by single spaces):

* the token pattern `\b\w\w+\b` keeps exactly the space-separated words of
  length at least two;
* English stop words are removed, then unigrams and bigrams are formed;
* each document becomes the vector of raw term counts scaled by the per-term
  idf weight (rows are then l2-normalized; cosine similarity is invariant
  under that scaling, so the model computes the cosine of the unnormalized
  vectors directly, with the zero-vector case defined as 0 exactly as in
  `sklearn.preprocessing.normalize` / `cosine_similarity`);
* `max_features=1000` caps the vocabulary at the 1000 most frequent
  features.  The vocabulary is therefore kept as an explicit argument
  `vocab` in the vector construction; all universally quantified theorems
  below hold for every vocabulary, in particular for scikit-learn's capped
  one, and the concrete corpora appearing in closed statements have far
  fewer than 1000 features, where the cap selects everything. -/

/-- Worker splitting a character list at `' '` (the separator structure of
cleaned text). -/
def splitSpAux (cur : List Char) : List Char → List (List Char)
  | [] => [cur.reverse]
  | c :: cs => if c = ' ' then cur.reverse :: splitSpAux [] cs else splitSpAux (c :: cur) cs

/-- Split a cleaned text into its space-separated words. -/
def splitSp (l : List Char) : List (List Char) := splitSpAux [] l

/-- Modelled from the spec: the "standard stop-word list" excluded by the
vectorizer (`stop_words='english'`, scikit-learn's frozen English list, which
is library code not present in this repository).  Abbreviated to frequent
entries; only membership of the words occurring in the concrete statements
below matters, and every word listed here is in scikit-learn's list. -/
def stopWords : List (List Char) :=
  ["the".data, "and".data, "a".data, "an".data, "of".data, "to".data, "in".data,
   "is".data, "it".data, "on".data, "for".data, "with".data, "as".data, "at".data,
   "by".data, "or".data, "be".data, "are".data, "was".data, "were".data,
   "this".data, "that".data, "from".data, "but".data, "not".data, "no".data,
   "have".data, "has".data, "had".data, "he".data, "she".data, "they".data,
   "we".data, "you".data, "his".data, "her".data, "its".data, "our".data,
   "their".data, "what".data, "which".data, "who".data, "whom".data, "all".data,
   "any".data, "both".data, "each".data, "few".data, "more".data, "most".data,
   "other".data, "some".data, "such".data, "only".data, "own".data, "same".data,
   "so".data, "than".data, "too".data, "very".data, "can".data, "will".data]

/-- Tokens of one vectorizer input: words of length at least two
(token pattern `\b\w\w+\b`) that are not stop words. -/
def vecTokens (l : List Char) : List (List Char) :=
  ((splitSp l).filter (fun w => 2 ≤ w.length)).filter (fun w => !stopWords.contains w)

/-- Bigram features (`ngram_range=(1,2)`): consecutive token pairs joined by a
space, formed after stop-word removal as scikit-learn does. -/
def bigramsOf (ws : List (List Char)) : List (List Char) :=
  List.zipWith (fun a b => a ++ ' ' :: b) ws ws.tail

/-- All features (unigrams then bigrams) of one vectorizer input. -/
def featuresOf (l : List Char) : List (List Char) :=
  vecTokens l ++ bigramsOf (vecTokens l)

/-- The fitted vocabulary: every feature occurring in the corpus
(note on `max_features` above). -/
def buildVocab (docs : List (List (List Char))) : List (List Char) :=
  docs.flatten.eraseDups

/-- TF-IDF row of one document over a vocabulary: raw term count times the
idf weight of the term. -/
def tfidfVec (idf : List Char → ℚ) (vocab : List (List Char))
    (doc : List (List Char)) : List ℚ :=
  vocab.map fun t => (doc.count t : ℚ) * idf t

/-- Dot product of two coordinate lists. -/
def dotQ (u v : List ℚ) : ℚ := (List.zipWith (· * ·) u v).sum

/-- Cosine similarity as computed by
`sklearn.metrics.pairwise.cosine_similarity`: zero whenever either vector is
zero (scikit-learn leaves zero rows unnormalized), otherwise the dot product
divided by the product of the Euclidean norms. -/
noncomputable def cosSim (u v : List ℚ) : ℝ :=
  if dotQ u u = 0 ∨ dotQ v v = 0 then 0
  else (dotQ u v : ℝ) / (Real.sqrt (dotQ u u) * Real.sqrt (dotQ v v))

/-! ### Skill matching (`_analyze_skill_match`, `calculate_skill_gap_score`) -/

/-- Python `a in b` on strings: `a` occurs contiguously in `b`.  Worker testing
whether `a` is an initial segment of `b`. -/
def leadsB : List Char → List Char → Bool
  | [], _ => true
  | _ :: _, [] => false
  | a :: as, b :: bs => a = b && leadsB as bs

/-- Python `a in b` on strings (contiguous substring, the empty string occurs
everywhere). -/
def substrB (a b : List Char) : Bool :=
  match b with
  | [] => a.isEmpty
  | _ :: bs => leadsB a b || substrB a bs

/-- Python `s.lower().strip()`, the normalization applied to skills and
requirements in `_analyze_skill_match`. -/
def canonSkill (s : String) : List Char :=
  stripChars (s.data.map Char.toLower)

/-- One requirement test of `_analyze_skill_match`: exact membership among the
normalized candidate skills, or a partial match where either string contains
the other. -/
def skillHit (csl : List (List Char)) (req : List Char) : Bool :=
  csl.contains req || csl.any fun cs => substrB req cs || substrB cs req

/-- Loop of `_analyze_skill_match` over the requirement list, keeping input
order: each requirement goes to the matching list or to the missing list. -/
def analyzeLoop (csl : List (List Char)) : List String → List String × List String
  | [] => ([], [])
  | r :: rest =>
    let p := analyzeLoop csl rest
    if skillHit csl (canonSkill r) then (r :: p.1, p.2) else (p.1, r :: p.2)

/-- Model of `MatchingService._analyze_skill_match`. -/
def analyze_skill_match (candidate_skills job_requirements : List String) :
    List String × List String :=
  analyzeLoop (candidate_skills.map canonSkill) job_requirements

/-- The hard-coded `critical_skills` list of `calculate_skill_gap_score`. -/
def criticalSkills : List String :=
  ["python", "java", "sql", "aws", "react", "machine learning", "data science"]

/-- Critical-gap test of `calculate_skill_gap_score`:
`any(critical.lower() in skill.lower() for critical in critical_skills)`. -/
def isCriticalGap (s : String) : Bool :=
  criticalSkills.any fun c => substrB (c.data.map Char.toLower) (s.data.map Char.toLower)

/-- Numeric and list fields of the dictionary returned by
`calculate_skill_gap_score` (the personalized-insight strings are omitted;
no claim concerns them). -/
structure GapResult where
  skill_coverage : ℚ
  gap_score : ℚ
  critical_gaps : ℕ
  matching_skills_count : ℕ
  missing_skills_count : ℕ
  matching_skills : List String
  missing_skills : List String
  deriving Repr, DecidableEq

/-- Model of `MatchingService.calculate_skill_gap_score`.  When the
requirement list is empty the code returns the fixed dictionary with
`skill_coverage = 100.0` and `gap_score = 0.0` (that dictionary carries no
`matching_skills`/`missing_skills` keys; they are modelled as `[]`). -/
def calculate_skill_gap_score (candidate_skills job_requirements : List String) :
    GapResult :=
  let p := analyze_skill_match candidate_skills job_requirements
  if job_requirements.length = 0 then
    { skill_coverage := 100, gap_score := 0, critical_gaps := 0,
      matching_skills_count := 0, missing_skills_count := 0,
      matching_skills := [], missing_skills := [] }
  else
    { skill_coverage := (p.1.length : ℚ) / (job_requirements.length : ℚ) * 100,
      gap_score := (p.2.length : ℚ) / (job_requirements.length : ℚ) * 100,
      critical_gaps := (p.2.filter isCriticalGap).length,
      matching_skills_count := p.1.length,
      missing_skills_count := p.2.length,
      matching_skills := p.1,
      missing_skills := p.2 }

/-! ### The ranking pipeline (`match_candidates_to_job`) -/

/-- Candidate input dictionary consumed by `match_candidates_to_job`. -/
structure Candidate where
  user_id : String
  user_name : String
  user_email : String
  resume_id : String
  job_id : String
  resume_text : String
  skills : List String
  experience : List String
  experience_level : Option String

/-- The `CandidateMatch` schema (one ranked entry). -/
structure CandidateMatch where
  user_id : String
  user_name : String
  user_email : String
  resume_id : String
  match_score : ℝ
  matching_skills : List String
  missing_skills : List String
  experience_level : Option String

/-- The `JobMatchResponse` schema. -/
structure JobMatchResponse where
  job_id : String
  job_title : String
  total_candidates : ℕ
  candidates : List CandidateMatch
  average_match_score : ℝ

/-- One entry of the normal branch of `_calculate_similarity_scores`: the
cosine score of the candidate text against the job row, plus the skill
analysis of the candidate against the requirements. -/
noncomputable def buildMatchEntry (idf : List Char → ℚ) (vocab : List (List Char))
    (jobDoc : List (List Char)) (job_requirements : List String)
    (p : String × Candidate) : CandidateMatch :=
  { user_id := p.2.user_id, user_name := p.2.user_name,
    user_email := p.2.user_email, resume_id := p.2.resume_id,
    match_score := cosSim (tfidfVec idf vocab jobDoc)
      (tfidfVec idf vocab (featuresOf p.1.data)),
    matching_skills := (analyze_skill_match p.2.skills job_requirements).1,
    missing_skills := (analyze_skill_match p.2.skills job_requirements).2,
    experience_level := p.2.experience_level }

/-- Model of `MatchingService._calculate_similarity_scores`.  The `vocab = []`
branch is the `ValueError("empty vocabulary")` raised by `fit_transform` when
no document yields any feature, caught by the handler that assigns score
`0.0`, no matching skills and all requirements missing to every candidate. -/
noncomputable def calculate_similarity_scores (idf : List Char → ℚ)
    (job_text : String) (candidate_texts : List String)
    (candidate_info : List Candidate) (job_requirements : List String) :
    List CandidateMatch :=
  let docs := featuresOf job_text.data :: candidate_texts.map fun t => featuresOf t.data
  let vocab := buildVocab docs
  if vocab.isEmpty then
    candidate_info.map fun c =>
      { user_id := c.user_id, user_name := c.user_name, user_email := c.user_email,
        resume_id := c.resume_id, match_score := 0, matching_skills := [],
        missing_skills := job_requirements, experience_level := c.experience_level }
  else
    (candidate_texts.zip candidate_info).map
      (buildMatchEntry idf vocab (featuresOf job_text.data) job_requirements)

/-- Stable descending insertion by `match_score`: skip over strictly greater
scores, settle before the first element whose score is not greater.  Python's
`list.sort(key=..., reverse=True)` is a stable descending sort, and the stable
descending ordering of a list is unique, so this models it exactly. -/
noncomputable def insertDesc (x : CandidateMatch) :
    List CandidateMatch → List CandidateMatch
  | [] => [x]
  | y :: ys => if x.match_score < y.match_score then y :: insertDesc x ys else x :: y :: ys

/-- Stable descending sort by `match_score`
(model of `filtered_matches.sort(key=lambda x: x.match_score, reverse=True)`). -/
noncomputable def sortDesc (l : List CandidateMatch) : List CandidateMatch :=
  l.foldr insertDesc []

/-- Model of `MatchingService.match_candidates_to_job`.  `min_sim` and
`max_cand` are `settings.min_similarity_score` and
`settings.max_candidates_return`, read once at service construction (neither
field is declared in `app/config.py`; the model keeps them as parameters). -/
noncomputable def match_candidates_to_job (idf : List Char → ℚ) (min_sim : ℝ)
    (max_cand : ℕ) (job_description : String) (job_requirements : List String)
    (candidates : List Candidate) : JobMatchResponse :=
  match candidates with
  | [] =>
    { job_id := "", job_title := "", total_candidates := 0, candidates := [],
      average_match_score := 0 }
  | c0 :: _ =>
    let job_text := prepare_job_text job_description job_requirements
    let candidate_texts := candidates.map fun c =>
      prepare_candidate_text c.resume_text c.skills c.experience
    let results := calculate_similarity_scores idf job_text candidate_texts
      candidates job_requirements
    let filtered := results.filter fun m => min_sim ≤ m.match_score
    let sorted := sortDesc filtered
    let top := sorted.take max_cand
    let avg : ℝ := if top.isEmpty then 0 else (top.map fun m => m.match_score).sum / top.length
    { job_id := c0.job_id,
      job_title := if 50 < job_description.length
        then job_description.take 50 ++ "..." else job_description,
      total_candidates := top.length,
      candidates := top,
      average_match_score := avg }

/-! ### Counseling readiness score (`_calculate_market_adjusted_score`) -/

/-- One entry of a `missing_skills` list inside the skill-gap analysis
(only the fields the score reads). -/
structure GapSkillInfo where
  skill : String
  priority : String

/-- One entry of the `skill_gap_analysis` list. -/
structure GapInfo where
  missing_skills : List GapSkillInfo

/-- Market-demand points for one user skill: the maximal dataset frequency
over keywords related by the bidirectional substring test, converted to a
percentage and capped at 2.5 points (`min(demand_percentage / 20, 2.5)`). -/
def marketPoints (keywords : List (List Char)) (totalJobs : ℕ) (u : List Char) : ℚ :=
  let keys := keywords.eraseDups
  let demand := ((keys.filter fun k => substrB u k || substrB k u).map
    fun k => keywords.count k).foldr max 0
  min (((demand : ℚ) / (totalJobs : ℚ) * 100) / 20) (5/2)

/-- Model of `CounselingService._calculate_market_adjusted_score`.
`job_dataset` is the list of `skillKeywords` lists of the loaded dataset. -/
def calculate_market_adjusted_score (job_dataset : List (List String))
    (user_skills user_experience : List String)
    (skill_gap_analysis : List GapInfo) : ℚ :=
  let skill_score := min ((user_skills.length : ℚ) * (7/2)) 35
  let experience_score := min ((user_experience.length : ℚ) * 8) 25
  let keywords := (job_dataset.flatten).map canonSkill
  let total_jobs := job_dataset.length
  let market_demand_score :=
    if total_jobs = 0 then 0
    else min ((user_skills.map fun s => marketPoints keywords total_jobs (canonSkill s)).sum) 25
  let gap_penalty := min ((skill_gap_analysis.map fun g =>
    ((g.missing_skills.filter fun s => s.priority = "High").length : ℚ) * (3/2)).sum) 10
  let total_gaps := (skill_gap_analysis.map fun g => g.missing_skills.length).sum
  let alignment_bonus : ℚ :=
    if skill_gap_analysis.isEmpty then 0
    else if total_gaps ≤ 3 then 15
    else if total_gaps ≤ 6 then 10
    else if total_gaps ≤ 10 then 5
    else 0
  max 0 (min 100
    (skill_score + experience_score + market_demand_score - gap_penalty + alignment_bonus))

/-! ### Spec-side definitions for the composite-score refinement claim

`spec.md` §4.5–§4.6 describe experience/education matchers and a weighted
composite `overallScore`; no implementation of any of them exists in the
repository, so they are modelled from the spec's words and compared with what
the code actually assigns. -/

/-- Modelled from the spec: §4.6, the composite score
`0.4*skillMatch + 0.25*experienceMatch + 0.2*textSimilarity + 0.15*educationMatch`. -/
def specOverallScore (skillMatch experienceMatch textSimilarity educationMatch : ℚ) : ℚ :=
  (2/5) * skillMatch + (1/4) * experienceMatch + (1/5) * textSimilarity +
    (3/20) * educationMatch

/-- Modelled from the spec: §4.4, the skill sub-score as the Jaccard index of
the case-insensitive canonical skill sets (single-category form; a job whose
requirements coincide with the candidate's skills scores 1, absence of any
requirement is the neutral 0.5). -/
def specSkillMatch (candidate_skills job_skills : List String) : ℚ :=
  let a := (candidate_skills.map canonSkill).eraseDups
  let b := (job_skills.map canonSkill).eraseDups
  let u := (a ++ b).eraseDups
  if u.isEmpty then 1/2 else ((a.filter fun x => b.contains x).length : ℚ) / (u.length : ℚ)

/-- Modelled from the spec: §4.5, the experience matcher — 0.7 when the
requirement is unknown, 0.3 when the candidate's experience is unknown,
otherwise proportional credit capped at 1. -/
def specExperienceMatch : Option ℤ → Option ℤ → ℚ
  | _, none => 7/10
  | none, some _ => 3/10
  | some c, some r => if r ≤ 0 then 1 else min 1 (max 0 ((c : ℚ) / (r : ℚ)))

/-- Modelled from the spec: §4.5, the education matcher in the
no-detectable-requirement case — credit any education present. -/
def specEducationMatch (educationEntries : List String) : ℚ :=
  if educationEntries.isEmpty then 0 else 1

/-! ### Auxiliary definitions for statements -/

/-- Score-equality test, used to state tie-break stability. -/
noncomputable def scoreIs (s : ℝ) : CandidateMatch → Bool := fun m => decide (m.match_score = s)

/-- The candidate text list built by the loop inside `match_candidates_to_job`. -/
def candidateTexts (cands : List Candidate) : List String :=
  cands.map fun c => prepare_candidate_text c.resume_text c.skills c.experience

/-- Constant idf weight used in closed statements (any per-term weighting
satisfies the hypotheses of the universal theorems; the closed statements
below hold for this concrete one). -/
def idfOne : List Char → ℚ := fun _ => 1

/-- Concrete candidate whose single skill `"it"` coincides with the job
requirement `"it"` (a scikit-learn stop word, hence absent from the job's
feature set) while the resume shares no vectorizer feature with the job text
`"qq"`. -/
def candIT : Candidate :=
  { user_id := "u1", user_name := "Ann", user_email := "ann@example.com",
    resume_id := "r1", job_id := "j1", resume_text := "zz", skills := ["it"],
    experience := [], experience_level := none }

/-- Concrete blank candidate (used for the output-length statements). -/
def candBlank1 : Candidate :=
  { user_id := "u1", user_name := "Ann", user_email := "ann@example.com",
    resume_id := "r1", job_id := "j1", resume_text := "", skills := [],
    experience := [], experience_level := none }

/-- Second concrete blank candidate. -/
def candBlank2 : Candidate :=
  { user_id := "u2", user_name := "Ben", user_email := "ben@example.com",
    resume_id := "r2", job_id := "j1", resume_text := "", skills := [],
    experience := [], experience_level := none }

/-- The entry that the exception branch of `_calculate_similarity_scores`
produces for `candBlank1` with an empty requirement list. -/
noncomputable def entryBlank : CandidateMatch :=
  { user_id := "u1", user_name := "Ann", user_email := "ann@example.com",
    resume_id := "r1", match_score := 0, matching_skills := [], missing_skills := [],
    experience_level := none }

/-! ## Helper lemmas: characters and the text normalizer -/

theorem char_toNat_ofNat_valid {n : Nat} (h : n.isValidChar) : (Char.ofNat n).toNat = n := by
  simp [Char.ofNat, h, Char.ofNatAux, Char.toNat, UInt32.toNat, BitVec.toNat_ofNatLt]

/-- Python `str.lower` (ASCII part, `Char.toLower`) never outputs an uppercase
ASCII letter. -/
theorem toLower_not_upper (c : Char) :
    ¬(65 ≤ (Char.toLower c).toNat ∧ (Char.toLower c).toNat ≤ 90) := by
  simp only [Char.toLower]
  by_cases h : c.toNat ≥ 65 ∧ c.toNat ≤ 90
  · rw [if_pos h]
    have hv : (c.toNat + 32).isValidChar := by
      left
      have := h.2
      omega
    rw [char_toNat_ofNat_valid hv]
    omega
  · rw [if_neg h]
    omega

/-- After lowering, every character kept or produced by the masking step is a
lowercase alphanumeric or a whitespace character. -/
theorem maskLower_class (c : Char) :
    isLowerAlnum (maskChar (Char.toLower c)) = true
    ∨ isPySpace (maskChar (Char.toLower c)) = true := by
  by_cases h : isAsciiAlnum (Char.toLower c) || isPySpace (Char.toLower c)
  · rw [maskChar, if_pos h]
    rcases Bool.or_eq_true _ _ ▸ h with h1 | h2
    · left
      have hnu := toLower_not_upper c
      simp only [isAsciiAlnum, Bool.or_eq_true, Bool.and_eq_true, decide_eq_true_eq] at h1
      simp only [isLowerAlnum, Bool.or_eq_true, Bool.and_eq_true, decide_eq_true_eq]
      omega
    · right; exact h2
  · rw [maskChar, if_neg h]
    right; rfl

/-- Characters of the whitespace-collapsing output: every character either
comes from the input and is not whitespace, or is the single space `' '`. -/
theorem collapse_mem_class (l : List Char) :
    ∀ b c, c ∈ collapseWsAux b l → (c ∈ l ∧ isPySpace c = false) ∨ c = ' ' := by
  induction l with
  | nil => intro b c hc; simp [collapseWsAux] at hc
  | cons d ds ih =>
    intro b c hc
    by_cases hd : isPySpace d
    · rcases b with _ | _
      · simp only [collapseWsAux, hd, if_pos, if_true] at hc
        rw [if_neg (by simp)] at hc
        rcases List.mem_cons.1 hc with rfl | hc'
        · right; rfl
        · rcases ih true c hc' with ⟨h1, h2⟩ | h3
          · exact Or.inl ⟨List.mem_cons_of_mem d h1, h2⟩
          · exact Or.inr h3
      · simp only [collapseWsAux, hd, if_true] at hc
        rcases ih true c hc with ⟨h1, h2⟩ | h3
        · exact Or.inl ⟨List.mem_cons_of_mem d h1, h2⟩
        · exact Or.inr h3
    · simp only [collapseWsAux, hd, if_false] at hc
      rw [if_neg (by simp [hd])] at hc
      rcases List.mem_cons.1 hc with rfl | hc'
      · exact Or.inl ⟨List.mem_cons_self c ds, by simpa using hd⟩
      · rcases ih false c hc' with ⟨h1, h2⟩ | h3
        · exact Or.inl ⟨List.mem_cons_of_mem d h1, h2⟩
        · exact Or.inr h3

/-- Inside a whitespace run the collapser emits nothing until the next
non-whitespace character, so its output cannot start with whitespace. -/
theorem collapse_head_ne_space (l : List Char) :
    ∀ c, (collapseWsAux true l).head? = some c → isPySpace c = false := by
  induction l with
  | nil => intro c hc; simp [collapseWsAux] at hc
  | cons d ds ih =>
    intro c hc
    by_cases hd : isPySpace d
    · simp only [collapseWsAux, hd, if_true] at hc
      exact ih c hc
    · simp only [collapseWsAux, hd, if_false] at hc
      rw [if_neg (by simp [hd])] at hc
      simp only [List.head?_cons, Option.some.injEq] at hc
      rw [← hc]
      simpa using hd

/-- No two adjacent characters of the collapser's output are both spaces. -/
theorem collapse_chain (l : List Char) :
    ∀ b, (collapseWsAux b l).Chain' (fun a b => ¬(a = ' ' ∧ b = ' ')) := by
  induction l with
  | nil => intro b; simp [collapseWsAux]
  | cons d ds ih =>
    intro b
    by_cases hd : isPySpace d
    · rcases b with _ | _
      · simp only [collapseWsAux, hd, if_true]
        rw [if_neg (by simp)]
        refine List.chain'_cons'.2 ⟨?_, ih true⟩
        intro c hc
        have := collapse_head_ne_space ds c hc
        intro hcontra
        rw [hcontra.2] at this
        simp [isPySpace] at this
      · simp only [collapseWsAux, hd, if_true]
        exact ih true
    · simp only [collapseWsAux, hd, if_false]
      rw [if_neg (by simp [hd])]
      refine List.chain'_cons'.2 ⟨?_, ih false⟩
      intro c _
      intro hcontra
      rw [hcontra.1] at hd
      simp [isPySpace] at hd

theorem dropWhile_head_not (p : Char → Bool) (l : List Char) :
    ∀ c, (l.dropWhile p).head? = some c → p c = false := by
  induction l with
  | nil => intro c hc; simp at hc
  | cons d ds ih =>
    intro c hc
    by_cases hd : p d
    · rw [List.dropWhile_cons, if_pos hd] at hc
      exact ih c hc
    · rw [List.dropWhile_cons, if_neg hd] at hc
      simp only [List.head?_cons, Option.some.injEq] at hc
      rw [← hc]
      simpa using hd

theorem dropWhile_getLast (p : Char → Bool) (l : List Char)
    (h : l.dropWhile p ≠ []) : (l.dropWhile p).getLast? = l.getLast? := by
  induction l with
  | nil => simp at h
  | cons d ds ih =>
    by_cases hd : p d
    · rw [List.dropWhile_cons, if_pos hd] at h ⊢
      have hds : ds ≠ [] := by
        intro hnil
        rw [hnil] at h
        simp at h
      rw [ih h, List.getLast?_cons]
      cases ds with
      | nil => simp at hds
      | cons e es => simp [List.getLast?_cons]
    · rw [List.dropWhile_cons, if_neg hd]

theorem dropWhile_mem (p : Char → Bool) (l : List Char) (c : Char)
    (h : c ∈ l.dropWhile p) : c ∈ l := by
  induction l with
  | nil => simp at h
  | cons d ds ih =>
    by_cases hd : p d
    · rw [List.dropWhile_cons, if_pos hd] at h
      exact List.mem_cons_of_mem d (ih h)
    · rw [List.dropWhile_cons, if_neg hd] at h
      exact h

theorem chain_dropWhile (R : Char → Char → Prop) (p : Char → Bool) (l : List Char)
    (h : l.Chain' R) : (l.dropWhile p).Chain' R := by
  induction l with
  | nil => simp
  | cons d ds ih =>
    by_cases hd : p d
    · rw [List.dropWhile_cons, if_pos hd]
      exact ih h.tail
    · rw [List.dropWhile_cons, if_neg hd]
      exact h

theorem chain_reverse_symm (R : Char → Char → Prop) (hsym : ∀ a b, R a b → R b a)
    (l : List Char) (h : l.Chain' R) : l.reverse.Chain' R :=
  List.chain'_reverse.2 (h.imp fun a b hab => hsym a b hab)

/-- Membership transfer through `stripChars`. -/
theorem stripChars_mem (l : List Char) (c : Char) (h : c ∈ stripChars l) : c ∈ l := by
  simp only [stripChars, List.mem_reverse] at h
  exact dropWhile_mem _ _ _ (by simpa using dropWhile_mem _ _ _ h)

theorem stripChars_chain (l : List Char)
    (h : l.Chain' (fun a b => ¬(a = ' ' ∧ b = ' '))) :
    (stripChars l).Chain' (fun a b => ¬(a = ' ' ∧ b = ' ')) := by
  have hsym : ∀ a b : Char, ¬(a = ' ' ∧ b = ' ') → ¬(b = ' ' ∧ a = ' ') := by tauto
  exact chain_reverse_symm _ hsym _ (chain_dropWhile _ _ _
    (chain_reverse_symm _ hsym _ (chain_dropWhile _ _ _ h)))

theorem stripChars_head (l : List Char) (c : Char)
    (h : (stripChars l).head? = some c) : isPySpace c = false := by
  simp only [stripChars] at h
  rw [List.head?_reverse] at h
  have hne : (l.dropWhile isPySpace).reverse.dropWhile isPySpace ≠ [] := by
    intro hnil
    rw [hnil] at h
    simp at h
  rw [dropWhile_getLast _ _ hne, List.getLast?_reverse] at h
  exact dropWhile_head_not _ _ _ h

theorem stripChars_last (l : List Char) (c : Char)
    (h : (stripChars l).getLast? = some c) : isPySpace c = false := by
  simp only [stripChars] at h
  rw [List.getLast?_reverse] at h
  exact dropWhile_head_not _ _ _ h

/-! ## Claim theorem: the text normalizer -/

/-- C9 (confirmed): `_clean_text` is a deterministic total function; for every
input its output consists only of lowercase ASCII alphanumeric characters and
single separating spaces — no adjacent double space, no leading space, no
trailing space — and the empty string maps to the empty string.  (The code
replaces each non-alphanumeric character by a space before collapsing runs,
so no character outside this alphabet survives.) -/
theorem C9_clean_text_normal_form (s : String) :
    (∀ c ∈ (clean_text s).data, isLowerAlnum c = true ∨ c = ' ')
    ∧ (clean_text s).data.Chain' (fun a b => ¬(a = ' ' ∧ b = ' '))
    ∧ (∀ c, (clean_text s).data.head? = some c → c ≠ ' ')
    ∧ (∀ c, (clean_text s).data.getLast? = some c → c ≠ ' ')
    ∧ clean_text "" = "" := by
  refine ⟨?_, ?_, ?_, ?_, rfl⟩
  · intro c hc
    have hc' : c ∈ collapseWs ((s.data.map Char.toLower).map maskChar) :=
      stripChars_mem _ _ hc
    rcases collapse_mem_class _ _ _ hc' with ⟨h1, _⟩ | h2
    · rcases List.mem_map.1 h1 with ⟨d, hd, rfl⟩
      rcases List.mem_map.1 hd with ⟨e, _, rfl⟩
      exact maskLower_class e |>.imp id (fun hsp => by
        rcases collapse_mem_class _ _ _ hc' with ⟨_, hns⟩ | h2'
        · rw [hsp] at hns; cases hns
        · exact h2')
    · right; exact h2
  · exact stripChars_chain _ (collapse_chain _ _)
  · intro c hc
    have := stripChars_head _ _ hc
    intro hcsp
    rw [hcsp] at this
    simp [isPySpace] at this
  · intro c hc
    have := stripChars_last _ _ hc
    intro hcsp
    rw [hcsp] at this
    simp [isPySpace] at this

/-! ## Helper lemmas: skill matching -/

/-- The requirement loop of `_analyze_skill_match` is the evident partition of
the requirement list by the hit predicate, in input order. -/
theorem analyzeLoop_eq_filter (csl : List (List Char)) (js : List String) :
    analyzeLoop csl js =
      (js.filter (fun r => skillHit csl (canonSkill r)),
       js.filter (fun r => !skillHit csl (canonSkill r))) := by
  induction js with
  | nil => rfl
  | cons r rest ih =>
    by_cases h : skillHit csl (canonSkill r)
    · simp [analyzeLoop, ih, List.filter_cons, h]
    · simp [analyzeLoop, ih, List.filter_cons, h]

theorem analyze_skill_match_eq_filter (cs js : List String) :
    analyze_skill_match cs js =
      (js.filter (fun r => skillHit (cs.map canonSkill) (canonSkill r)),
       js.filter (fun r => !skillHit (cs.map canonSkill) (canonSkill r))) :=
  analyzeLoop_eq_filter _ _

/-- Adding a candidate skill can only extend the set of hits. -/
theorem skillHit_append (cs : List String) (s : String) (r : List Char)
    (h : skillHit (cs.map canonSkill) r = true) :
    skillHit ((cs ++ [s]).map canonSkill) r = true := by
  simp only [skillHit, List.map_append, List.map_cons, List.map_nil, Bool.or_eq_true,
    List.elem_eq_mem, decide_eq_true_eq, List.mem_append, List.any_append] at h ⊢
  tauto

theorem matching_count_mono (cs js : List String) (s : String) :
    (analyze_skill_match cs js).1.length ≤ (analyze_skill_match (cs ++ [s]) js).1.length := by
  rw [analyze_skill_match_eq_filter, analyze_skill_match_eq_filter]
  simp only [List.countP_eq_length_filter] at *
  rw [← List.countP_eq_length_filter, ← List.countP_eq_length_filter]
  exact List.countP_mono_left fun r _ h => skillHit_append cs s (canonSkill r) h

/-! ## Claim theorems: skill matching -/

/-- C10 (confirmed): `_analyze_skill_match` partitions the requirement list in
input order — the matching and missing lists are complementary filters of the
requirements, their lengths sum to the number of requirements, and for a
non-empty requirement list `skill_coverage + gap_score = 100`. -/
theorem C10_skill_match_partition (cs js : List String) :
    (analyze_skill_match cs js).1 =
        js.filter (fun r => skillHit (cs.map canonSkill) (canonSkill r))
    ∧ (analyze_skill_match cs js).2 =
        js.filter (fun r => !skillHit (cs.map canonSkill) (canonSkill r))
    ∧ (analyze_skill_match cs js).1.length + (analyze_skill_match cs js).2.length
        = js.length
    ∧ (js ≠ [] →
        (calculate_skill_gap_score cs js).skill_coverage
          + (calculate_skill_gap_score cs js).gap_score = 100) := by
  have hfil := analyze_skill_match_eq_filter cs js
  have hlen : (analyze_skill_match cs js).1.length + (analyze_skill_match cs js).2.length
      = js.length := by
    rw [hfil]
    exact (List.length_eq_length_filter_add (fun r => skillHit (cs.map canonSkill)
      (canonSkill r))).symm
  refine ⟨by rw [hfil], by rw [hfil], hlen, fun hne => ?_⟩
  have hpos : 0 < js.length := List.length_pos.2 hne
  have hq : ((js.length : ℚ)) ≠ 0 := by positivity
  simp only [calculate_skill_gap_score, if_neg (Nat.pos_iff_ne_zero.1 hpos)]
  have : ((analyze_skill_match cs js).1.length : ℚ)
      + ((analyze_skill_match cs js).2.length : ℚ) = (js.length : ℚ) := by
    exact_mod_cast congrArg (Nat.cast : ℕ → ℚ) hlen
  field_simp
  linarith

/-- Witness for C10 at a concrete input. -/
theorem C10_skill_match_partition_witness :
    (["java"] : List String) ≠ []
    ∧ (calculate_skill_gap_score ["python"] ["java"]).skill_coverage
        + (calculate_skill_gap_score ["python"] ["java"]).gap_score = 100 :=
  ⟨by simp, (C10_skill_match_partition ["python"] ["java"]).2.2.2 (by simp)⟩

/-- C3 counterexample: with an empty requirement list the code returns
`skill_coverage = 100.0`, which is neither the claimed neutral `0.5` nor its
0–100-scale counterpart `50`. -/
theorem C3_empty_requirements_cex :
    (calculate_skill_gap_score ["python"] []).skill_coverage = 100
    ∧ (calculate_skill_gap_score ["python"] []).skill_coverage ≠ 1/2
    ∧ (calculate_skill_gap_score ["python"] []).skill_coverage ≠ 50 := by
  have h : (calculate_skill_gap_score ["python"] []).skill_coverage = 100 := rfl
  refine ⟨h, ?_, ?_⟩
  · rw [h]; norm_num
  · rw [h]; norm_num

/-- C3 (corrected): for an empty requirement list `calculate_skill_gap_score`
returns the fixed full-coverage result — `skill_coverage = 100.0`,
`gap_score = 0.0` and no critical gaps — for every candidate skill list, and
(being a total function) raises no exception. -/
theorem C3_empty_requirements (cs : List String) :
    (calculate_skill_gap_score cs []).skill_coverage = 100
    ∧ (calculate_skill_gap_score cs []).gap_score = 0
    ∧ (calculate_skill_gap_score cs []).critical_gaps = 0 :=
  ⟨rfl, rfl, rfl⟩

/-- C4 counterexample: the requirement `"java"` IS matched by a candidate whose
only skill is `"javascript"` (the claim asserts it is not), because
`_analyze_skill_match` uses plain bidirectional substring containment. -/
theorem C4_java_javascript_cex :
    "java" ∈ (analyze_skill_match ["javascript"] ["java"]).1
    ∧ (analyze_skill_match ["javascript"] ["java"]).2 = [] := by
  refine ⟨?_, by decide⟩
  have : (analyze_skill_match ["javascript"] ["java"]).1 = ["java"] := by decide
  simp [this]

/-- C4 (corrected): skill matching is not word-boundary aware.  A requirement
is matched exactly when its `lower().strip()` form equals, is a contiguous
substring of, or contains a normalized candidate skill — so overlapping tokens
such as `"java"` inside `"javascript"` do match. -/
theorem C4_substring_matching (cs js : List String) (r : String) :
    r ∈ (analyze_skill_match cs js).1 ↔
      r ∈ js ∧ ∃ s ∈ cs, canonSkill r = canonSkill s
        ∨ substrB (canonSkill r) (canonSkill s) = true
        ∨ substrB (canonSkill s) (canonSkill r) = true := by
  rw [analyze_skill_match_eq_filter]
  simp only [List.mem_filter, skillHit, Bool.or_eq_true, List.elem_eq_mem,
    decide_eq_true_eq, List.any_eq_true, List.mem_map]
  constructor
  · rintro ⟨hmem, hhit⟩
    refine ⟨hmem, ?_⟩
    rcases hhit with ⟨s, hs, heq⟩ | ⟨x, ⟨s, hs, rfl⟩, hsub⟩
    · exact ⟨s, hs, Or.inl heq.symm⟩
    · rcases hsub with h1 | h2
      · exact ⟨s, hs, Or.inr (Or.inl h1)⟩
      · exact ⟨s, hs, Or.inr (Or.inr h2)⟩
  · rintro ⟨hmem, s, hs, hcase⟩
    refine ⟨hmem, ?_⟩
    rcases hcase with h | h | h
    · exact Or.inl ⟨s, hs, h.symm⟩
    · exact Or.inr ⟨canonSkill s, ⟨s, hs, rfl⟩, Or.inl h⟩
    · exact Or.inr ⟨canonSkill s, ⟨s, hs, rfl⟩, Or.inr h⟩

/-- C5 (confirmed): adding to the candidate a skill that appears among the
job's required skills never decreases the skill-coverage score. -/
theorem C5_add_skill_monotone (cs js : List String) (s : String) (hs : s ∈ js) :
    (calculate_skill_gap_score cs js).skill_coverage
      ≤ (calculate_skill_gap_score (cs ++ [s]) js).skill_coverage := by
  rcases eq_or_ne js.length 0 with h0 | h0
  · simp [calculate_skill_gap_score, h0]
  · have hmono := matching_count_mono cs js s
    simp only [calculate_skill_gap_score, if_neg h0]
    have hT : (0:ℚ) < (js.length : ℚ) := by
      have := Nat.pos_of_ne_zero h0
      exact_mod_cast this
    have hm : ((analyze_skill_match cs js).1.length : ℚ)
        ≤ ((analyze_skill_match (cs ++ [s]) js).1.length : ℚ) := by exact_mod_cast hmono
    gcongr

/-- Witness for C5 at a concrete input. -/
theorem C5_add_skill_monotone_witness :
    ("python" : String) ∈ (["python"] : List String)
    ∧ (calculate_skill_gap_score [] ["python"]).skill_coverage
        ≤ (calculate_skill_gap_score ["python"] ["python"]).skill_coverage :=
  ⟨by simp, C5_add_skill_monotone [] ["python"] "python" (by simp)⟩

/-! ## Helper lemmas: dot products and cosine similarity -/

theorem dotQ_nil_right (u : List ℚ) : dotQ u [] = 0 := by cases u <;> rfl

theorem dotQ_cons (a b : ℚ) (u v : List ℚ) :
    dotQ (a :: u) (b :: v) = a * b + dotQ u v := by
  simp [dotQ]

theorem dotQ_self_nonneg (v : List ℚ) : 0 ≤ dotQ v v := by
  induction v with
  | nil => simp [dotQ]
  | cons a u ih => rw [dotQ_cons]; nlinarith [sq_nonneg a]

theorem dotQ_nonneg (u : List ℚ) :
    ∀ v, (∀ x ∈ u, 0 ≤ x) → (∀ x ∈ v, 0 ≤ x) → 0 ≤ dotQ u v := by
  induction u with
  | nil => intro v _ _; simp [dotQ]
  | cons a u ih =>
    intro v hu hv
    cases v with
    | nil => simp [dotQ_nil_right]
    | cons b w =>
      rw [dotQ_cons]
      have ha : 0 ≤ a := hu a (List.mem_cons_self a u)
      have hb : 0 ≤ b := hv b (List.mem_cons_self b w)
      have hrec := ih w (fun x hx => hu x (List.mem_cons_of_mem a hx))
        (fun x hx => hv x (List.mem_cons_of_mem b hx))
      nlinarith

/-- Cauchy–Schwarz for the list dot product. -/
theorem dotQ_sq_le (u : List ℚ) : ∀ v, (dotQ u v)^2 ≤ dotQ u u * dotQ v v := by
  induction u with
  | nil => intro v; simp [dotQ]
  | cons a u ih =>
    intro v
    cases v with
    | nil => simp [dotQ_nil_right, dotQ]
    | cons b w =>
      rw [dotQ_cons, dotQ_cons, dotQ_cons]
      have hS := ih w
      have hU := dotQ_self_nonneg u
      have hV := dotQ_self_nonneg w
      set S := dotQ u w
      set U := dotQ u u
      set V := dotQ w w
      rcases eq_or_lt_of_le hV with hV0 | hVpos
      · have hS0 : S = 0 := by nlinarith [sq_nonneg S]
        rw [hS0, ← hV0]
        nlinarith [mul_nonneg hU (sq_nonneg b)]
      · nlinarith [sq_nonneg (a*V - b*S),
          mul_nonneg (sub_nonneg.2 hS) (add_nonneg (sq_nonneg b) hV)]

/-- A vanishing dot product gives cosine similarity exactly 0, in both the
guarded and the unguarded branch. -/
theorem cosSim_eq_zero_of_dot (u v : List ℚ) (h : dotQ u v = 0) : cosSim u v = 0 := by
  rw [cosSim]
  by_cases hg : dotQ u u = 0 ∨ dotQ v v = 0
  · rw [if_pos hg]
  · rw [if_neg hg, h]
    simp

/-- A zero right-hand vector (vanishing self-dot-product) gives cosine 0. -/
theorem cosSim_eq_zero_of_right (u v : List ℚ) (h : dotQ v v = 0) : cosSim u v = 0 := by
  rw [cosSim, if_pos (Or.inr h)]

/-- Cosine similarity of vectors with non-negative coordinates lies in `[0, 1]`. -/
theorem cosSim_bounds (u v : List ℚ) (hu : ∀ x ∈ u, 0 ≤ x) (hv : ∀ x ∈ v, 0 ≤ x) :
    0 ≤ cosSim u v ∧ cosSim u v ≤ 1 := by
  rw [cosSim]
  by_cases hg : dotQ u u = 0 ∨ dotQ v v = 0
  · rw [if_pos hg]; norm_num
  · rw [if_neg hg]
    push_neg at hg
    have hU : 0 < dotQ u u := lt_of_le_of_ne (dotQ_self_nonneg u) (Ne.symm hg.1)
    have hV : 0 < dotQ v v := lt_of_le_of_ne (dotQ_self_nonneg v) (Ne.symm hg.2)
    have hD : 0 ≤ dotQ u v := dotQ_nonneg u v hu hv
    have hUr : (0:ℝ) < Real.sqrt (dotQ u u) := Real.sqrt_pos.2 (by exact_mod_cast hU)
    have hVr : (0:ℝ) < Real.sqrt (dotQ v v) := Real.sqrt_pos.2 (by exact_mod_cast hV)
    constructor
    · apply div_nonneg (by exact_mod_cast hD)
      positivity
    · rw [div_le_one (by positivity)]
      have hcs : ((dotQ u v : ℝ))^2 ≤ (dotQ u u : ℝ) * (dotQ v v : ℝ) := by
        exact_mod_cast dotQ_sq_le u v
      have h1 : (dotQ u v : ℝ) ≤ Real.sqrt ((dotQ u u : ℝ) * (dotQ v v : ℝ)) :=
        (Real.le_sqrt (by exact_mod_cast hD) (by positivity)).2 hcs
      calc (dotQ u v : ℝ) ≤ Real.sqrt ((dotQ u u : ℝ) * (dotQ v v : ℝ)) := h1
        _ = Real.sqrt (dotQ u u) * Real.sqrt (dotQ v v) :=
          Real.sqrt_mul (by exact_mod_cast hU.le) _

theorem tfidfVec_nonneg (idf : List Char → ℚ) (h : ∀ t, 0 ≤ idf t)
    (vocab doc : List (List Char)) : ∀ x ∈ tfidfVec idf vocab doc, 0 ≤ x := by
  intro x hx
  rcases List.mem_map.1 hx with ⟨t, _, rfl⟩
  exact mul_nonneg (by positivity) (h t)

/-- The TF-IDF row of a document with no features is the zero vector. -/
theorem tfidfVec_empty_doc (idf : List Char → ℚ) (vocab : List (List Char)) :
    dotQ (tfidfVec idf vocab []) (tfidfVec idf vocab []) = 0 := by
  induction vocab with
  | nil => rfl
  | cons t ts ih =>
    simp only [tfidfVec, List.map_cons, List.count_nil, Nat.cast_zero, zero_mul] at ih ⊢
    rw [dotQ_cons, ih]
    ring

/-- Dot product of two rows over the same vocabulary. -/
theorem dotQ_map_map (f g : List Char → ℚ) (vocab : List (List Char)) :
    dotQ (vocab.map f) (vocab.map g) = (vocab.map fun t => f t * g t).sum := by
  induction vocab with
  | nil => rfl
  | cons t ts ih => simp only [List.map_cons, dotQ_cons, List.sum_cons, ih]

/-! ## Helper lemmas: the stable descending sort -/

theorem insertDesc_length (x : CandidateMatch) (l : List CandidateMatch) :
    (insertDesc x l).length = l.length + 1 := by
  induction l with
  | nil => rfl
  | cons y ys ih =>
    rw [insertDesc]
    by_cases h : x.match_score < y.match_score
    · rw [if_pos h]; simp [ih]
    · rw [if_neg h]; simp

theorem sortDesc_length (l : List CandidateMatch) : (sortDesc l).length = l.length := by
  induction l with
  | nil => rfl
  | cons y ys ih =>
    rw [sortDesc, List.foldr_cons, ← sortDesc, insertDesc_length, ih]
    simp

theorem insertDesc_mem (x z : CandidateMatch) (l : List CandidateMatch) :
    z ∈ insertDesc x l ↔ z = x ∨ z ∈ l := by
  induction l with
  | nil => simp [insertDesc]
  | cons y ys ih =>
    rw [insertDesc]
    by_cases h : x.match_score < y.match_score
    · rw [if_pos h]; simp [ih]; tauto
    · rw [if_neg h]; simp

theorem insertDesc_sorted (x : CandidateMatch) (l : List CandidateMatch)
    (h : l.Pairwise (fun a b => b.match_score ≤ a.match_score)) :
    (insertDesc x l).Pairwise (fun a b => b.match_score ≤ a.match_score) := by
  induction l with
  | nil => simp [insertDesc]
  | cons y ys ih =>
    rw [insertDesc]
    by_cases hc : x.match_score < y.match_score
    · rw [if_pos hc]
      refine List.pairwise_cons.2 ⟨?_, ih (List.pairwise_cons.1 h).2⟩
      intro z hz
      rcases (insertDesc_mem x z ys).1 hz with rfl | hz'
      · exact hc.le
      · exact (List.pairwise_cons.1 h).1 z hz'
    · rw [if_neg hc]
      refine List.pairwise_cons.2 ⟨?_, h⟩
      intro z hz
      rcases List.mem_cons.1 hz with rfl | hz'
      · exact le_of_not_lt hc
      · exact le_trans ((List.pairwise_cons.1 h).1 z hz') (le_of_not_lt hc)

theorem sortDesc_sorted (l : List CandidateMatch) :
    (sortDesc l).Pairwise (fun a b => b.match_score ≤ a.match_score) := by
  induction l with
  | nil => simp [sortDesc]
  | cons y ys ih =>
    rw [sortDesc, List.foldr_cons, ← sortDesc]
    exact insertDesc_sorted y (sortDesc ys) ih

/-- Equal-score entries pass through the insertion unchanged: all entries
skipped over have strictly greater score, hence a different score. -/
theorem insertDesc_filter (s : ℝ) (x : CandidateMatch) (l : List CandidateMatch) :
    (insertDesc x l).filter (scoreIs s) =
      if x.match_score = s then x :: l.filter (scoreIs s) else l.filter (scoreIs s) := by
  induction l with
  | nil =>
    by_cases h : x.match_score = s
    · rw [if_pos h]; simp [insertDesc, scoreIs, h]
    · rw [if_neg h]; simp [insertDesc, scoreIs, h]
  | cons y ys ih =>
    rw [insertDesc]
    by_cases hc : x.match_score < y.match_score
    · rw [if_pos hc]
      by_cases hx : x.match_score = s
      · have hy : ¬(y.match_score = s) := by
          intro hys
          rw [hx] at hc
          rw [hys] at hc
          exact lt_irrefl s hc
        rw [if_pos hx]
        rw [List.filter_cons, if_neg (by simp [scoreIs, hy]), ih, if_pos hx,
          List.filter_cons, if_neg (by simp [scoreIs, hy])]
      · rw [if_neg hx]
        rw [List.filter_cons, ih, if_neg hx, List.filter_cons]
    · rw [if_neg hc]
      by_cases hx : x.match_score = s
      · rw [if_pos hx, List.filter_cons, if_pos (by simp [scoreIs, hx])]
      · rw [if_neg hx, List.filter_cons, if_neg (by simp [scoreIs, hx])]

/-- Stability of the descending sort: filtering on any exact score value
returns those entries in their original relative order. -/
theorem sortDesc_filter_stable (s : ℝ) (l : List CandidateMatch) :
    (sortDesc l).filter (scoreIs s) = l.filter (scoreIs s) := by
  induction l with
  | nil => rfl
  | cons y ys ih =>
    rw [sortDesc, List.foldr_cons, ← sortDesc, insertDesc_filter]
    by_cases hy : y.match_score = s
    · rw [if_pos hy, ih, List.filter_cons, if_pos (by simp [scoreIs, hy])]
    · rw [if_neg hy, ih, List.filter_cons, if_neg (by simp [scoreIs, hy])]

/-! ## Helper lemmas: the similarity pipeline -/

theorem zip_map_self {α β γ : Type} (as : List β) (f : β → α) (g : α → γ) :
    ((as.map f).zip as).map (fun p => g p.1) = as.map fun a => g (f a) := by
  induction as with
  | nil => rfl
  | cons a rest ih => simp only [List.map_cons, List.zip_cons_cons, ih]

theorem get?_zip_pair {α β : Type} :
    ∀ (as : List α) (bs : List β) (i : ℕ),
      (as.zip bs).get? i = (as.get? i).bind fun a => (bs.get? i).map fun b => (a, b) := by
  intro as
  induction as with
  | nil => intro bs i; simp
  | cons a rest ih =>
    intro bs i
    cases bs with
    | nil => simp
    | cons b bs' =>
      cases i with
      | zero => simp
      | succ j => simpa using ih bs' j

/-- The scores assigned by `_calculate_similarity_scores`: all zero in the
empty-vocabulary (exception) branch, otherwise the cosine similarity between
the job row and each candidate row. -/
theorem scs_map_score (idf : List Char → ℚ) (jt : String) (cands : List Candidate)
    (reqs : List String) :
    (calculate_similarity_scores idf jt (candidateTexts cands) cands reqs).map
        (fun m => m.match_score)
      = if (buildVocab (featuresOf jt.data
            :: (candidateTexts cands).map fun t => featuresOf t.data)).isEmpty
        then cands.map fun _ => (0:ℝ)
        else (candidateTexts cands).map fun t =>
          cosSim
            (tfidfVec idf (buildVocab (featuresOf jt.data
              :: (candidateTexts cands).map fun t' => featuresOf t'.data))
              (featuresOf jt.data))
            (tfidfVec idf (buildVocab (featuresOf jt.data
              :: (candidateTexts cands).map fun t' => featuresOf t'.data))
              (featuresOf t.data)) := by
  simp only [calculate_similarity_scores]
  generalize hV : buildVocab (featuresOf jt.data
      :: (candidateTexts cands).map fun t => featuresOf t.data) = V
  by_cases hv : V.isEmpty
  · rw [if_pos hv, if_pos hv, List.map_map]
    rfl
  · rw [if_neg hv, if_neg hv, List.map_map]
    simp only [Function.comp_def, buildMatchEntry]
    rw [candidateTexts]
    conv_rhs => rw [List.map_map]
    exact zip_map_self cands
      (fun c => prepare_candidate_text c.resume_text c.skills c.experience)
      (fun t => cosSim (tfidfVec idf V (featuresOf jt.data))
        (tfidfVec idf V (featuresOf t.data)))

/-- `_calculate_similarity_scores` returns one entry per candidate. -/
theorem scs_length (idf : List Char → ℚ) (jt : String) (cands : List Candidate)
    (reqs : List String) :
    (calculate_similarity_scores idf jt (candidateTexts cands) cands reqs).length
      = cands.length := by
  simp only [calculate_similarity_scores]
  by_cases hv : (buildVocab (featuresOf jt.data
      :: (candidateTexts cands).map fun t => featuresOf t.data)).isEmpty
  · rw [if_pos hv]; simp
  · rw [if_neg hv]; simp [candidateTexts]

/-- Every score `_calculate_similarity_scores` produces lies in `[0, 1]`
whenever the idf weights are non-negative. -/
theorem scs_score_bounds (idf : List Char → ℚ) (h : ∀ t, 0 ≤ idf t) (jt : String)
    (cts : List String) (cands : List Candidate) (reqs : List String) :
    ∀ m ∈ calculate_similarity_scores idf jt cts cands reqs,
      0 ≤ m.match_score ∧ m.match_score ≤ 1 := by
  intro m hm
  simp only [calculate_similarity_scores] at hm
  by_cases hv : (buildVocab (featuresOf jt.data :: cts.map fun t => featuresOf t.data)).isEmpty
  · rw [if_pos hv] at hm
    rcases List.mem_map.1 hm with ⟨c, _, rfl⟩
    norm_num
  · rw [if_neg hv] at hm
    rcases List.mem_map.1 hm with ⟨p, _, rfl⟩
    exact cosSim_bounds _ _ (tfidfVec_nonneg idf h _ _) (tfidfVec_nonneg idf h _ _)

/-- With the constant idf weight 1, the dot product of two TF-IDF rows is the
natural-number sum of the per-term count products (a form the kernel can
evaluate on concrete corpora). -/
theorem dotQ_idfOne_counts (V d1 d2 : List (List Char)) :
    dotQ (tfidfVec idfOne V d1) (tfidfVec idfOne V d2)
      = ((V.map fun t => d1.count t * d2.count t).sum : ℕ) := by
  rw [tfidfVec, tfidfVec, dotQ_map_map]
  induction V with
  | nil => simp
  | cons t ts ih =>
    simp only [List.map_cons, List.sum_cons, idfOne, mul_one] at ih ⊢
    rw [Nat.cast_add, Nat.cast_mul, ih]

/-! ## Claim theorems: the ranking pipeline -/

/-- C1 (corrected, amended form): the overall score `match_candidates_to_job`
assigns to a candidate is exactly the TF-IDF cosine text-similarity score of
the prepared candidate text against the prepared job text (or 0.0 in the
degenerate empty-vocabulary case) — no weighted multi-factor combination is
computed anywhere — and the returned candidate list is ordered descending by
that score. -/
theorem C1_rank_by_cosine_only (idf : List Char → ℚ) (min_sim : ℝ) (max_cand : ℕ)
    (desc : String) (reqs : List String) (cands : List Candidate) :
    ((match_candidates_to_job idf min_sim max_cand desc reqs cands).candidates).Pairwise
        (fun a b => b.match_score ≤ a.match_score)
    ∧ ((calculate_similarity_scores idf (prepare_job_text desc reqs)
          (candidateTexts cands) cands reqs).map (fun m => m.match_score)
        = if (buildVocab (featuresOf (prepare_job_text desc reqs).data
              :: (candidateTexts cands).map fun t => featuresOf t.data)).isEmpty
          then cands.map fun _ => (0:ℝ)
          else (candidateTexts cands).map fun t =>
            cosSim
              (tfidfVec idf (buildVocab (featuresOf (prepare_job_text desc reqs).data
                :: (candidateTexts cands).map fun t' => featuresOf t'.data))
                (featuresOf (prepare_job_text desc reqs).data))
              (tfidfVec idf (buildVocab (featuresOf (prepare_job_text desc reqs).data
                :: (candidateTexts cands).map fun t' => featuresOf t'.data))
                (featuresOf t.data))) := by
  refine ⟨?_, scs_map_score idf (prepare_job_text desc reqs) cands reqs⟩
  cases cands with
  | nil => simp [match_candidates_to_job]
  | cons c0 rest =>
    simp only [match_candidates_to_job]
    exact (sortDesc_sorted _).sublist (List.take_sublist _ _)

/-- C1 counterexample: a candidate possessing every required skill (here the
single requirement `"it"`, which the candidate has verbatim) but with a resume
sharing no vectorizer feature with the job text receives the overall score
0.0, whereas the claimed weighted combination
`0.4*skillMatch + 0.25*experienceMatch + 0.2*textSimilarity + 0.15*educationMatch`
of sub-scores (skill match 1 for the full skill coverage, the spec's own
defaults for the unknown experience/education requirements, text similarity
0) is strictly positive — the code's score equals none of it. -/
theorem C1_weighted_combination_cex :
    ((match_candidates_to_job idfOne 0 10 "qq" ["it"] [candIT]).candidates.map
        fun m => m.match_score) = [0]
    ∧ (calculate_skill_gap_score candIT.skills ["it"]).skill_coverage = 100
    ∧ specOverallScore (specSkillMatch candIT.skills ["it"])
        (specExperienceMatch none none) 0 (specEducationMatch []) ≠ 0 := by
  refine ⟨?_, ?_, ?_⟩
  · have hjt : prepare_job_text "qq" ["it"] = "qq it" := by decide
    have hct : List.map (fun c => prepare_candidate_text c.resume_text c.skills c.experience)
        [candIT] = ["zz itit"] := by decide
    have hdot : dotQ
        (tfidfVec idfOne (buildVocab (featuresOf ("qq it" : String).data
          :: (["zz itit"] : List String).map fun t => featuresOf t.data))
          (featuresOf ("qq it" : String).data))
        (tfidfVec idfOne (buildVocab (featuresOf ("qq it" : String).data
          :: (["zz itit"] : List String).map fun t => featuresOf t.data))
          (featuresOf ("zz itit" : String).data)) = 0 := by
      rw [dotQ_idfOne_counts]
      simp only [Nat.cast_eq_zero]
      decide
    have hres : calculate_similarity_scores idfOne "qq it" ["zz itit"] [candIT] ["it"]
        = [buildMatchEntry idfOne
            (buildVocab (featuresOf ("qq it" : String).data
              :: (["zz itit"] : List String).map fun t => featuresOf t.data))
            (featuresOf ("qq it" : String).data) ["it"] ("zz itit", candIT)] := by
      simp only [calculate_similarity_scores]
      rw [if_neg (by decide)]
      rfl
    have hm0 : (buildMatchEntry idfOne
        (buildVocab (featuresOf ("qq it" : String).data
          :: (["zz itit"] : List String).map fun t => featuresOf t.data))
        (featuresOf ("qq it" : String).data) ["it"] ("zz itit", candIT)).match_score = 0 :=
      cosSim_eq_zero_of_dot _ _ hdot
    simp only [match_candidates_to_job, hjt, hct, hres]
    set mm := buildMatchEntry idfOne
      (buildVocab (featuresOf ("qq it" : String).data
        :: (["zz itit"] : List String).map fun t => featuresOf t.data))
      (featuresOf ("qq it" : String).data) ["it"] ("zz itit", candIT) with hmm
    simp [List.filter_cons, sortDesc, insertDesc, hm0, ← hmm]
  · show (calculate_skill_gap_score ["it"] ["it"]).skill_coverage = 100
    simp only [calculate_skill_gap_score]
    rw [if_neg (by decide)]
    rw [show (analyze_skill_match ["it"] ["it"]).1.length = 1 from by decide]
    norm_num
  · have hs : specSkillMatch candIT.skills ["it"] = 1 := by
      show specSkillMatch ["it"] ["it"] = 1
      have e1 : ((["it"] : List String).map canonSkill).eraseDups = [['i','t']] := by decide
      simp only [specSkillMatch, e1]
      have e2 : (([['i','t']] : List (List Char)) ++ [['i','t']]).eraseDups = [['i','t']] := by
        decide
      rw [e2]
      have e3 : ([['i','t']] : List (List Char)).filter
          (fun x => ([['i','t']] : List (List Char)).contains x) = [['i','t']] := by decide
      rw [if_neg (by decide), e3]
      norm_num
    rw [hs]
    norm_num [specOverallScore, specExperienceMatch, specEducationMatch]

/-- C2 (corrected, amended form): for a non-empty candidate list,
`_calculate_similarity_scores` produces one entry per input candidate, but
`match_candidates_to_job` then keeps only the candidates whose score reaches
`min_similarity_score` and truncates to the `max_candidates_return` best: the
returned list has length `min max_cand (number of candidates passing the
threshold)`, not the input length. -/
theorem C2_output_length (idf : List Char → ℚ) (min_sim : ℝ) (max_cand : ℕ)
    (desc : String) (reqs : List String) (cands : List Candidate) (h : cands ≠ []) :
    (match_candidates_to_job idf min_sim max_cand desc reqs cands).candidates.length
      = min max_cand ((calculate_similarity_scores idf (prepare_job_text desc reqs)
          (candidateTexts cands) cands reqs).filter
            (fun m => min_sim ≤ m.match_score)).length
    ∧ (calculate_similarity_scores idf (prepare_job_text desc reqs)
        (candidateTexts cands) cands reqs).length = cands.length := by
  refine ⟨?_, scs_length idf (prepare_job_text desc reqs) cands reqs⟩
  cases cands with
  | nil => exact absurd rfl h
  | cons c0 rest =>
    simp only [match_candidates_to_job, candidateTexts]
    rw [List.length_take, sortDesc_length]

/-- Witness for C2 at a concrete input. -/
theorem C2_output_length_witness :
    ([candBlank1] : List Candidate) ≠ []
    ∧ (match_candidates_to_job idfOne 0 10 "" [] [candBlank1]).candidates.length
        = min 10 ((calculate_similarity_scores idfOne (prepare_job_text "" [])
            (candidateTexts [candBlank1]) [candBlank1] []).filter
              (fun m => (0:ℝ) ≤ m.match_score)).length :=
  ⟨by simp, (C2_output_length idfOne 0 10 "" [] [candBlank1] (by simp)).1⟩

/-- C2 counterexample: with `max_candidates_return = 1`, two candidates go in
and only one comes out — the ranking drops a candidate, so the output length
differs from the input length. -/
theorem C2_candidate_dropped_cex :
    (match_candidates_to_job idfOne 0 1 "" [] [candBlank1, candBlank2]).candidates.length = 1
    ∧ (match_candidates_to_job idfOne 0 1 "" [] [candBlank1, candBlank2]).candidates.length
        ≠ ([candBlank1, candBlank2] : List Candidate).length := by
  have hjt : prepare_job_text "" [] = "" := by decide
  have hct : List.map (fun c => prepare_candidate_text c.resume_text c.skills c.experience)
      [candBlank1, candBlank2] = ["", ""] := by decide
  have h1 : (match_candidates_to_job idfOne 0 1 "" [] [candBlank1, candBlank2]).candidates.length
      = 1 := by
    simp only [match_candidates_to_job, hjt, hct, calculate_similarity_scores]
    rw [if_pos (by decide)]
    simp [List.filter_cons, sortDesc, insertDesc, lt_irrefl]
  refine ⟨h1, ?_⟩
  rw [h1]
  simp

/-- C6 (confirmed): the ranking is deterministic — the model is a pure
function of its inputs, mirroring the code, which draws on no randomness or
external state during scoring — and ties are broken by stable input order:
restricted to any exact score value `s`, the returned candidate list is a
subsequence of the per-candidate result list, which is built in input order,
so equal-score candidates keep their relative input order. -/
theorem C6_deterministic_stable_ties (idf : List Char → ℚ) (min_sim : ℝ)
    (max_cand : ℕ) (desc : String) (reqs : List String) (cands : List Candidate)
    (s : ℝ) :
    match_candidates_to_job idf min_sim max_cand desc reqs cands
      = match_candidates_to_job idf min_sim max_cand desc reqs cands
    ∧ List.Sublist
        (((match_candidates_to_job idf min_sim max_cand desc reqs cands).candidates).filter
          (scoreIs s))
        ((calculate_similarity_scores idf (prepare_job_text desc reqs)
          (candidateTexts cands) cands reqs).filter (scoreIs s)) := by
  refine ⟨rfl, ?_⟩
  cases cands with
  | nil => simp [match_candidates_to_job]
  | cons c0 rest =>
    simp only [match_candidates_to_job, candidateTexts]
    refine List.Sublist.trans ((List.take_sublist _ _).filter _) ?_
    rw [sortDesc_filter_stable, List.filter_comm]
    exact List.filter_sublist _

/-- C7 (confirmed): every match score produced by the similarity stage lies in
`[0, 1]` (positions outside the list default to 0, also in bounds), and the
counseling readiness score `_calculate_market_adjusted_score` lies in
`[0, 100]` — the exact rational model has no NaN, and the final
`max(0.0, min(100.0, score))` clamp forces the counseling bounds. -/
theorem C7_score_bounds (idf : List Char → ℚ) (jt : String) (cts : List String)
    (cands : List Candidate) (reqs : List String) (i : ℕ)
    (ds : List (List String)) (us ue : List String) (gaps : List GapInfo)
    (h : ∀ t, 0 ≤ idf t) :
    (0 ≤ ((calculate_similarity_scores idf jt cts cands reqs).map
        fun m => m.match_score).getD i 0
     ∧ ((calculate_similarity_scores idf jt cts cands reqs).map
        fun m => m.match_score).getD i 0 ≤ 1)
    ∧ (0 ≤ calculate_market_adjusted_score ds us ue gaps
       ∧ calculate_market_adjusted_score ds us ue gaps ≤ 100) := by
  constructor
  · have hb := scs_score_bounds idf h jt cts cands reqs
    rw [List.getD_eq_getElem?_getD, List.getElem?_map]
    rcases hm : (calculate_similarity_scores idf jt cts cands reqs)[i]? with _ | m
    · simp
    · have hmem := List.getElem?_mem hm
      simpa using hb m hmem
  · simp only [calculate_market_adjusted_score]
    constructor
    · exact le_max_left 0 _
    · exact max_le (by norm_num) (min_le_left _ _)

/-- Witness for C7 at a concrete input. -/
theorem C7_score_bounds_witness :
    (0 ≤ ((calculate_similarity_scores idfOne "qq" ["zz"] [candIT] []).map
        fun m => m.match_score).getD 0 0
     ∧ ((calculate_similarity_scores idfOne "qq" ["zz"] [candIT] []).map
        fun m => m.match_score).getD 0 0 ≤ 1)
    ∧ (0 ≤ calculate_market_adjusted_score [] [] [] []
       ∧ calculate_market_adjusted_score [] [] [] [] ≤ 100) :=
  C7_score_bounds idfOne "qq" ["zz"] [candIT] [] 0 [] [] [] []
    (fun t => by norm_num [idfOne])

/-- C8 (confirmed): a candidate whose prepared text yields no vectorizer
feature (empty, or consisting entirely of stop words and sub-2-character
tokens) receives text-similarity score 0.0 — its TF-IDF row is the zero
vector and the zero-vector guard of the cosine yields 0 — and when the whole
batch is degenerate (the `ValueError("empty vocabulary")` case), the caught
exception likewise assigns 0.0 to every candidate; the model is total, no
exception reaches the caller. -/
theorem C8_degenerate_text_zero (idf : List Char → ℚ) (jt : String)
    (cts : List String) (cands : List Candidate) (reqs : List String) :
    (∀ i t m, cts.get? i = some t → featuresOf t.data = [] →
        (calculate_similarity_scores idf jt cts cands reqs).get? i = some m →
        m.match_score = 0)
    ∧ ((featuresOf jt.data = [] ∧ ∀ t ∈ cts, featuresOf t.data = []) →
        ∀ m ∈ calculate_similarity_scores idf jt cts cands reqs,
          m.match_score = 0) := by
  constructor
  · intro i t m hget hfeat hm
    simp only [calculate_similarity_scores] at hm
    by_cases hv : (buildVocab (featuresOf jt.data
        :: cts.map fun t' => featuresOf t'.data)).isEmpty
    · rw [if_pos hv, List.get?_map] at hm
      rcases hc : cands.get? i with _ | c
      · rw [hc] at hm; cases hm
      · rw [hc] at hm
        simp only [Option.map_some', Option.some.injEq] at hm
        subst hm
        rfl
    · rw [if_neg hv, List.get?_map, get?_zip_pair, hget] at hm
      rcases hc : cands.get? i with _ | c
      · rw [hc] at hm; cases hm
      · rw [hc] at hm
        simp only [Option.some_bind, Option.map_some', Option.some.injEq] at hm
        subst hm
        show cosSim _ (tfidfVec idf _ (featuresOf t.data)) = 0
        rw [hfeat]
        exact cosSim_eq_zero_of_right _ _ (tfidfVec_empty_doc idf _)
  · intro hall m hm
    simp only [calculate_similarity_scores] at hm
    have hv : (buildVocab (featuresOf jt.data
        :: cts.map fun t' => featuresOf t'.data)).isEmpty := by
      have hd : ∀ d ∈ (featuresOf jt.data :: cts.map fun t' => featuresOf t'.data),
          d = ([] : List (List Char)) := by
        intro d hd
        rcases List.mem_cons.1 hd with rfl | hd'
        · exact hall.1
        · rcases List.mem_map.1 hd' with ⟨t', ht', rfl⟩
          exact hall.2 t' ht'
      rw [buildVocab]
      rw [List.flatten_eq_nil_iff.2 hd]
      rfl
    rw [if_pos hv] at hm
    rcases List.mem_map.1 hm with ⟨c, _, rfl⟩
    rfl

/-- Witness for C8 at a concrete input: a candidate whose whole text is the
stop word `"the"` and an empty job text (the whole batch is degenerate). -/
theorem C8_degenerate_text_zero_witness :
    featuresOf ("" : String).data = [] ∧ featuresOf ("the" : String).data = []
    ∧ ((calculate_similarity_scores idfOne "" ["the"] [candBlank1] []).map
        fun m => m.match_score) = [0] := by
  refine ⟨by decide, by decide, ?_⟩
  have hz := (C8_degenerate_text_zero idfOne "" ["the"] [candBlank1] []).2
    ⟨by decide, by
      intro t ht
      rw [List.mem_singleton] at ht
      subst ht
      decide⟩
  have hbranch : calculate_similarity_scores idfOne "" ["the"] [candBlank1] []
      = [entryBlank] := by
    simp only [calculate_similarity_scores]
    rw [if_pos (by decide)]
    rfl
  have h0 : entryBlank.match_score = 0 :=
    hz entryBlank (by rw [hbranch]; exact List.mem_singleton.2 rfl)
  rw [hbranch]
  simp only [List.map_cons, List.map_nil]
  rw [h0]

end JobPortal
